import Mathlib

set_option maxHeartbeats 1000000

/- Shallow embedding of scripts/validate_package.py: a validator for
   rayforge-package.yaml metadata.  Python dictionaries are modelled as
   association lists, filesystem state as an explicit list of existing
   paths, and Python exceptions as an Except monad over a failure kind. -/

/-- Failure kinds raised by the validator (a taxonomy of the exception
messages; `otherError` stands for exceptions outside the documented
taxonomy, e.g. AttributeError or import-system errors, all of which the
top-level handler reports generically with exit code 1). -/
inductive VFailure where
  | missingKey (k : String)
  | wrongType (k : String)
  | invalidVersion
  | nameMismatch
  | emptyField (k : String)
  | placeholderDetected
  | invalidEmail
  | emptyProvides
  | assetsNotList
  | assetEntryNotDict
  | invalidAsset
  | pathTraversal
  | assetNotFound
  | malformedRef
  | moduleNotFound
  | attributeNotFound
  | fileNotFound
  | parseError
  | wrongShape
  | otherError
  deriving DecidableEq

/-- Generic YAML value (the result of yaml.safe_load): strings, mappings,
sequences, and all other scalars (numbers, booleans, null) collapsed into
`other`. -/
inductive YValue where
  | str (s : String)
  | dict (entries : List (String × YValue))
  | list (items : List YValue)
  | other

/-- Python types named by the schema's isinstance checks. -/
inductive PyType where
  | tStr
  | tDict
  deriving DecidableEq

def isinstance_of : YValue → PyType → Bool
  | .str _, .tStr => true
  | .dict _, .tDict => true
  | _, _ => false

/-- A schema rule: expected type and whether the key is required. -/
structure SchemaRule where
  type : PyType
  required : Bool

abbrev Schema := List (String × SchemaRule)

def SCHEMA : Schema :=
  [("name", ⟨.tStr, true⟩), ("description", ⟨.tStr, true⟩),
   ("author", ⟨.tDict, true⟩), ("provides", ⟨.tDict, true⟩)]

def AUTHOR_SCHEMA : Schema :=
  [("name", ⟨.tStr, true⟩), ("email", ⟨.tStr, true⟩)]

/-- Embeds `_validate_dict_schema`: iterates the schema's declared fields in
order, failing on a missing required key or on a present key of the wrong
type; keys of the document not in the schema are never consulted. -/
def validate_dict_schema (data : List (String × YValue)) (schema : Schema)
    (parent_key : String) : Except VFailure Unit :=
  match schema with
  | [] => .ok ()
  | (key, rules) :: rest =>
    let full_key := if parent_key = "" then key else parent_key ++ "." ++ key
    if rules.required && (data.lookup key).isNone then .error (.missingKey full_key)
    else
      match data.lookup key with
      | some v =>
        if isinstance_of v rules.type then validate_dict_schema data rest parent_key
        else .error (.wrongType full_key)
      | none => validate_dict_schema data rest parent_key

/-- Python `data.get("author", {})` restricted to mappings (a present
non-mapping value is unreachable here because the top-level schema already
rejected it). -/
def author_subdict (data : List (String × YValue)) : List (String × YValue) :=
  match data.lookup "author" with
  | some (.dict d) => d
  | _ => []

/-- Embeds `validate_schema`: the top-level schema, then the author
sub-schema with key prefix "author". -/
def validate_schema (data : List (String × YValue)) : Except VFailure Unit := do
  validate_dict_schema data SCHEMA ""
  validate_dict_schema (author_subdict data) AUTHOR_SCHEMA "author"

/-- Python str.strip() whitespace set (the characters str.isspace accepts:
tab through carriage return, the information separators 0x1C-0x1F, space,
next line, no-break space, and the Unicode space-category codepoints). -/
def isPyWs (c : Char) : Bool :=
  let n := c.toNat
  (decide (9 ≤ n) && decide (n ≤ 13)) || n == 32 ||
    (decide (28 ≤ n) && decide (n ≤ 31)) || n == 0x85 || n == 0xA0 ||
    n == 0x1680 || (decide (0x2000 ≤ n) && decide (n ≤ 0x200A)) ||
    n == 0x2028 || n == 0x2029 || n == 0x202F || n == 0x205F || n == 0x3000

def pyStrip (s : String) : String :=
  ⟨(((s.toList.dropWhile isPyWs).reverse).dropWhile isPyWs).reverse⟩

/-- Embeds `_check_non_empty_str` as applied to an optional value: None and
blank strings raise ValueError naming the key; non-string values are
unreachable after schema validation and collapse to `otherError`. -/
def check_non_empty_str (value : Option YValue) (key_nm : String) :
    Except VFailure Unit :=
  match value with
  | some (.str s) =>
    if s = "" then .error (.emptyField key_nm)
    else if pyStrip s = "" then .error (.emptyField key_nm)
    else .ok ()
  | none => .error (.emptyField key_nm)
  | some _ => .error .otherError

/-- Split a character list at every occurrence of `sep` (like
String.split); always returns at least one group. -/
def splitOnChar (sep : Char) (cs : List Char) : List (List Char) :=
  match cs with
  | [] => [[]]
  | c :: rest =>
    match splitOnChar sep rest with
    | [] => [[]]
    | g :: gs => if c == sep then [] :: g :: gs else (c :: g) :: gs

def isIdentChar (c : Char) : Bool := c.isAlpha || c.isDigit || c == '-'

def numNoLeadingZero (ds : List Char) : Bool :=
  ds == ['0'] || ds.head? != some '0'

/-- Greedy parse of a semver numeric identifier (`0|[1-9]\d*`); returns the
remaining input on success. -/
def takeNum (cs : List Char) : Option (List Char) :=
  let ds := cs.takeWhile Char.isDigit
  if ds.isEmpty then none
  else if numNoLeadingZero ds then some (cs.dropWhile Char.isDigit) else none

def preIdOk (id : List Char) : Bool :=
  !id.isEmpty && id.all isIdentChar &&
    (!(id.all Char.isDigit) || numNoLeadingZero id)

def buildIdOk (id : List Char) : Bool := !id.isEmpty && id.all isIdentChar

/-- Optional `-prerelease` and `+build` sections after MAJOR.MINOR.PATCH. -/
def semverTail (cs : List Char) : Bool :=
  match cs with
  | [] => true
  | '-' :: rest =>
    ((splitOnChar '.' (rest.takeWhile (fun c => c != '+'))).all preIdOk) &&
    (match rest.dropWhile (fun c => c != '+') with
     | [] => true
     | _ :: b => (splitOnChar '.' b).all buildIdOk)
  | '+' :: b => (splitOnChar '.' b).all buildIdOk
  | _ => false

/-- Require a literal '.' separator. -/
def expectDot (cs : List Char) : Option (List Char) :=
  match cs with
  | '.' :: rest => some rest
  | _ => none

/-- The semver.org regex core, matched against the whole input:
`major.minor.patch` with optional `-prerelease` and `+build`, numeric
identifiers without leading zeros.  The semver library applies this regex
through `re.match` with `^...$` anchors; that parse-level behavior
(acceptance of one trailing newline by `$`) is in `pyReMatchSemver`. -/
def semverValidL (cs : List Char) : Bool :=
  match takeNum cs with
  | none => false
  | some r1 =>
    match expectDot r1 with
    | none => false
    | some r1' =>
      match takeNum r1' with
      | none => false
      | some r2 =>
        match expectDot r2 with
        | none => false
        | some r2' =>
          match takeNum r2' with
          | none => false
          | some r3 => semverTail r3

def semverValid (s : String) : Bool := semverValidL s.toList

/-- Python `re.match` of a `$`-anchored pattern also matches just before a
single trailing newline: this is the trailing-newline branch, for an
arbitrary whole-string matcher `f`. -/
def hasTrailingNewlineMatch (f : List Char → Bool) (s : String) : Bool :=
  match s.toList.getLast? with
  | some c => c == '\n' && f s.toList.dropLast
  | none => false

/-- Embeds success of `semver.VersionInfo.parse`: the library matches its
`^...$` semver.org regex with `re.match`, so the input parses when it
matches the regex core exactly or up to one trailing newline. -/
def pyReMatchSemver (s : String) : Bool :=
  semverValidL s.toList || hasTrailingNewlineMatch semverValidL s

/-- Python `tag.lstrip("v")`: removes every leading 'v'. -/
def pyLstripV (s : String) : String := ⟨s.toList.dropWhile (fun c => c == 'v')⟩

/-- Embeds `_check_tag`: a falsy tag (None or "") is skipped silently;
otherwise all leading 'v' characters are stripped and the remainder must
parse under `semver.VersionInfo.parse`. -/
def check_tag (tag : Option String) : Except VFailure Unit :=
  match tag with
  | none => .ok ()
  | some t =>
    if t = "" then .ok ()
    else if pyReMatchSemver (pyLstripV t) then .ok () else .error .invalidVersion

/-- Embeds `_check_package_name` (a falsy expected name skips the check;
a metadata value that is not the expected string is a mismatch). -/
def check_package_name (metadata_nm : Option YValue) (expected : Option String) :
    Except VFailure Unit :=
  match expected with
  | none => .ok ()
  | some e =>
    if e = "" then .ok ()
    else
      match metadata_nm with
      | some (.str s) => if s = e then .ok () else .error .nameMismatch
      | _ => .error .nameMismatch

def isLocalChar (c : Char) : Bool :=
  c.isAlpha || c.isDigit || c == '_' || c == '.' || c == '+' || c == '-'

def isDomChar (c : Char) : Bool := c.isAlpha || c.isDigit || c == '-'

def isTailChar (c : Char) : Bool := c.isAlpha || c.isDigit || c == '-' || c == '.'

/-- Core of the email regex `^[a-zA-Z0-9_.+-]+@[a-zA-Z0-9-]+\.[a-zA-Z0-9-.]+$`
matched against the whole input (the greedy character classes are
deterministic here because '@' and the first '.' separator lie outside the
classes preceding them). -/
def emailCore (cs : List Char) : Bool :=
  match cs.dropWhile isLocalChar with
  | a :: r2 =>
    a == '@' &&
      (match r2.dropWhile isDomChar with
       | b :: t =>
         b == '.' && !(cs.takeWhile isLocalChar).isEmpty &&
           !(r2.takeWhile isDomChar).isEmpty && !t.isEmpty && t.all isTailChar
       | [] => false)
  | [] => false

/-- Python `re.match` with a `$`-anchored pattern: `$` matches at the end of
the string or just before a single trailing newline. -/
def pyReMatchEmail (s : String) : Bool :=
  emailCore s.toList ||
    (match s.toList.getLast? with
     | some c => c == '\n' && emailCore s.toList.dropLast
     | none => false)

/-- Python substring containment `pat in s`. -/
def hasSubstrL (pat : List Char) (s : List Char) : Bool :=
  match s with
  | [] => pat.isEmpty
  | c :: rest => pat.isPrefixOf (c :: rest) || hasSubstrL pat rest

def py_in_str (pat s : String) : Bool := hasSubstrL pat.toList s.toList

/-- Python `entries.get(key, "")` where a string is expected (`none` marks
the unreachable non-string case). -/
def get_str_default (entries : List (String × YValue)) (key : String) :
    Option String :=
  match entries.lookup key with
  | none => some ""
  | some (.str s) => some s
  | some _ => none

/-- Embeds `_check_author_content`: non-empty name and email, no placeholder
marker in the name, then the email regex (non-string name/email values are
unreachable after schema validation and collapse to `otherError`). -/
def check_author_content (author_data : List (String × YValue)) :
    Except VFailure Unit :=
  match get_str_default author_data "name", get_str_default author_data "email" with
  | some nm, some email =>
    (match check_non_empty_str (some (.str nm)) "author.name" with
     | .error e => .error e
     | .ok _ =>
       match check_non_empty_str (some (.str email)) "author.email" with
       | .error e => .error e
       | .ok _ =>
         if py_in_str "your-github-username" nm then .error .placeholderDetected
         else if pyReMatchEmail email then .ok () else .error .invalidEmail)
  | _, _ => .error .otherError

/-- POSIX path as pathlib parses it: an absolute flag plus the parsed
segments (empty and "." components are dropped by pathlib; ".." is kept). -/
structure PyPath where
  absolute : Bool
  segments : List String
  deriving DecidableEq

def parsePath (s : String) : PyPath :=
  { absolute := match s.toList with
      | '/' :: _ => true
      | _ => false,
    segments :=
      ((splitOnChar '/' s.toList).filter
        (fun seg => !seg.isEmpty && seg != ['.'])).map (fun l => String.mk l) }

/-- pathlib `root / p`: an absolute right operand replaces the left. -/
def pyJoin (root p : PyPath) : PyPath :=
  if p.absolute then p
  else ⟨root.absolute, root.segments ++ p.segments⟩

def is_under (p q : PyPath) : Bool :=
  p.absolute == q.absolute && q.segments.isPrefixOf p.segments

/-- Embeds `_check_asset_path` over an abstract filesystem `fs` (the list of
existing paths): falsy or non-string path value, then the `..`-segment check
on the parsed path, then existence of `root_path / path`. -/
def check_asset_path (fs : List PyPath) (path_val : Option YValue)
    (root_path : PyPath) : Except VFailure Unit :=
  match path_val with
  | some (.str s) =>
    if s = "" then .error .invalidAsset
    else if ".." ∈ (parsePath s).segments then .error .pathTraversal
    else if pyJoin root_path (parsePath s) ∈ fs then .ok ()
    else .error .assetNotFound
  | _ => .error .invalidAsset

inductive AssignTarget where
  | nameT (id : String)
  | otherT
  deriving DecidableEq

/-- Top-level Python statements as produced by ast.parse, restricted to the
kinds the validator distinguishes; definition bodies are carried so that
statements nested inside functions/classes are represented. -/
inductive PyStmt where
  | functionDef (nm : String) (body : List PyStmt)
  | asyncFunctionDef (nm : String) (body : List PyStmt)
  | classDef (nm : String) (body : List PyStmt)
  | assign (targets : List AssignTarget)
  | annAssign (target : AssignTarget)
  | other

/-- One iteration of the scan in `_check_code_entry_point`: a FunctionDef or
ClassDef named `attr`, or an Assign with a bare-name target `attr`. -/
def stmt_matches (attr : String) : PyStmt → Bool
  | .functionDef nm _ => nm == attr
  | .classDef nm _ => nm == attr
  | .assign targets =>
    targets.any (fun t => match t with | .nameT i => i == attr | .otherT => false)
  | _ => false

/-- The scan loop of `_check_code_entry_point` over the module's direct
top-level statements: first match wins, otherwise NameError. -/
def scan_top_level (body : List PyStmt) (attr : String) : Except VFailure Unit :=
  match body with
  | [] => .error .attributeNotFound
  | s :: rest => if stmt_matches attr s then .ok () else scan_top_level rest attr

def child (r : PyPath) (seg : String) : PyPath := ⟨r.absolute, r.segments ++ [seg]⟩

inductive SpecResult where
  | found (origin : PyPath)
  | notFound
  | importError
  deriving DecidableEq

/-- First search root providing module `m`: within one root a package
`m/__init__.py` takes precedence over a plain `m.py`.  Namespace packages
and non-filesystem finders are not modelled; the validator rejects them
anyway because their spec origin is None. -/
def find_module_origin (fs : List PyPath) (roots : List PyPath) (m : String) :
    Option PyPath :=
  match roots with
  | [] => none
  | r :: rs =>
    if child (child r m) "__init__.py" ∈ fs then some (child (child r m) "__init__.py")
    else if child r (m ++ ".py") ∈ fs then some (child r (m ++ ".py"))
    else find_module_origin fs rs m

inductive ParentLookup where
  | pkgDir (dir : PyPath)
  | plainModule
  | missing

/-- Resolution of a parent component of a dotted module name over the
search roots: a package directory to descend into, a plain module (which
the import system rejects as "not a package"), or nothing. -/
def find_parent_package (fs : List PyPath) (roots : List PyPath) (m : String) :
    ParentLookup :=
  match roots with
  | [] => .missing
  | r :: rs =>
    if child (child r m) "__init__.py" ∈ fs then .pkgDir (child r m)
    else if child r (m ++ ".py") ∈ fs then .plainModule
    else find_parent_package fs rs m

/-- Models `importlib.util.find_spec` over the search roots (CPython
semantics: for a dotted name every parent package is imported first, which
executes its `__init__.py`; the second component collects the dotted names
of the modules so imported).  A plain-module or missing parent makes the
resolution machinery raise, modelled as `importError`. -/
def find_spec_aux (fs : List PyPath) :
    List PyPath → List String → List String → SpecResult × List (List String)
  | _, _, [] => (.notFound, [])
  | roots, _, [m] =>
    (match find_module_origin fs roots m with
     | some o => .found o
     | none => .notFound, [])
  | roots, done, m :: rest =>
    match find_parent_package fs roots m with
    | .pkgDir dir =>
      let res := find_spec_aux fs [dir] (done ++ [m]) rest
      (res.fst, (done ++ [m]) :: res.snd)
    | .plainModule => (.importError, [done ++ [m]])
    | .missing => (.importError, [])

def find_spec (fs : List PyPath) (roots : List PyPath) (segs : List String) :
    SpecResult × List (List String) :=
  find_spec_aux fs roots [] segs

/-- The module portion of `entry.split(":", 1)`, split on dots. -/
def module_segments (entry : String) : List String :=
  (splitOnChar '.' (entry.toList.takeWhile (fun c => c != ':'))).map
    (fun l => String.mk l)

/-- The attribute portion of `entry.split(":", 1)`. -/
def attr_of (entry : String) : String :=
  String.mk ((entry.toList.dropWhile (fun c => c != ':')).tail)

/-- Embeds `_check_code_entry_point`: malformed-reference check, module
resolution with the package root prepended to the interpreter's existing
sys.path, then the top-level AST scan of the resolved file (`ast` maps each
file to its parsed top-level statements).  Returns the validation outcome
together with the dotted names of the parent packages imported (hence
executed) during resolution.  An empty name component makes the import
system raise, collapsed to `otherError`. -/
def check_code_entry_point (fs : List PyPath) (ast : PyPath → List PyStmt)
    (sys_path : List PyPath) (root_path : PyPath) (entry_point : String) :
    Except VFailure Unit × List (List String) :=
  if ':' ∈ entry_point.toList then
    if "" ∈ module_segments entry_point then (.error .otherError, [])
    else
      match find_spec fs (root_path :: sys_path) (module_segments entry_point) with
      | (.found origin, ex) => (scan_top_level (ast origin) (attr_of entry_point), ex)
      | (.notFound, ex) => (.error .moduleNotFound, ex)
      | (.importError, ex) => (.error .otherError, ex)
  else (.error .malformedRef, [])

/-- The asset loop of `_check_provides`. -/
def check_assets (fs : List PyPath) (root_path : PyPath) :
    List YValue → Except VFailure Unit
  | [] => .ok ()
  | a :: rest =>
    match a with
    | .dict entries =>
      (match check_asset_path fs (entries.lookup "path") root_path with
       | .ok _ => check_assets fs root_path rest
       | .error e => .error e)
    | _ => .error .assetEntryNotDict

/-- Embeds `_check_provides`. -/
def check_provides (fs : List PyPath) (ast : PyPath → List PyStmt)
    (sys_path : List PyPath) (root_path : PyPath)
    (provides_data : List (String × YValue)) : Except VFailure Unit :=
  if provides_data.isEmpty ||
      (!(provides_data.lookup "code").isSome &&
        !(provides_data.lookup "assets").isSome) then
    .error .emptyProvides
  else
    match
      (match provides_data.lookup "assets" with
       | none => .ok ()
       | some (.list items) => check_assets fs root_path items
       | some _ => .error .assetsNotList : Except VFailure Unit)
    with
    | .error e => .error e
    | .ok _ =>
      match provides_data.lookup "code" with
      | none => .ok ()
      | some (.str e) => (check_code_entry_point fs ast sys_path root_path e).fst
      | some _ => .error .otherError

/-- Python `data.get("provides", {})` restricted to mappings (a present
non-mapping value is unreachable after schema validation). -/
def provides_subdict (data : List (String × YValue)) : List (String × YValue) :=
  match data.lookup "provides" with
  | some (.dict d) => d
  | _ => []

/-- Embeds `validate_content`: tag check, name match, non-empty fields,
author content, provides. -/
def validate_content (fs : List PyPath) (ast : PyPath → List PyStmt)
    (sys_path : List PyPath) (data : List (String × YValue)) (root_path : PyPath)
    (tag : Option String) (expected_nm : Option String) : Except VFailure Unit := do
  check_tag tag
  check_package_name (data.lookup "name") expected_nm
  check_non_empty_str (data.lookup "name") "name"
  check_non_empty_str (data.lookup "description") "description"
  check_author_content (author_subdict data)
  check_provides fs ast sys_path root_path (provides_subdict data)

/-- Ambient state the script observes: the filesystem, the parsed source of
each file, the interpreter's pre-existing sys.path, and the outcome of
locating and parsing the metadata file (`parsed = .error` models a
yaml.YAMLError). -/
structure World where
  fs : List PyPath
  ast : PyPath → List PyStmt
  sys_path : List PyPath
  metadata_present : Bool
  parsed : Except Unit YValue

structure Args where
  root_path : PyPath
  tag : Option String
  expected_nm : Option String

/-- Embeds the pipeline of `main` after argument parsing: locate and parse
the metadata file, require a top-level mapping, then run schema and content
validation. -/
def run_validation (w : World) (a : Args) : Except VFailure Unit :=
  if w.metadata_present then
    match w.parsed with
    | .error _ => .error .parseError
    | .ok (.dict data) => do
        validate_schema data
        validate_content w.fs w.ast w.sys_path data a.root_path a.tag a.expected_nm
    | .ok _ => .error .wrongShape
  else .error .fileNotFound

/-- Exit code of `main`: 0 on success, 1 on any failure (every exception the
script can raise is caught, including via SystemExit, and mapped to 1). -/
def run_exit (w : World) (a : Args) : Nat :=
  match run_validation w a with
  | .ok _ => 0
  | .error _ => 1

/- ------------------------------------------------------------------ -/
/- Helper lemmas                                                       -/
/- ------------------------------------------------------------------ -/

theorem takeWhile_app {α : Type} (p : α → Bool) :
    ∀ (l r : List α), (∀ c ∈ l, p c = true) →
      (∀ x, r.head? = some x → p x = false) →
      (l ++ r).takeWhile p = l ∧ (l ++ r).dropWhile p = r := by
  intro l
  induction l with
  | nil =>
    intro r _ hr
    cases r with
    | nil => simp
    | cons x xs =>
      have hx : p x = false := hr x rfl
      simp [List.takeWhile_cons, List.dropWhile_cons, hx]
  | cons c cs ih =>
    intro r hl hr
    have hc : p c = true := hl c (List.mem_cons_self c cs)
    have hrec := ih r (fun d hd => hl d (List.mem_cons_of_mem c hd)) hr
    simp [List.takeWhile_cons, List.dropWhile_cons, hc, hrec.1, hrec.2]

theorem scan_top_level_cases (body : List PyStmt) (attr : String) :
    scan_top_level body attr = .ok () ∨
      scan_top_level body attr = .error .attributeNotFound := by
  induction body with
  | nil => right; rfl
  | cons s rest ih =>
    cases hs : stmt_matches attr s with
    | true => left; simp [scan_top_level, hs]
    | false => simpa [scan_top_level, hs] using ih

/-- The property the spec ascribes to a matching top-level statement: a
function or class definition named `attr`, or an assignment to the bare
name `attr`. -/
def TopLevelDefines (attr : String) (s : PyStmt) : Prop :=
  (∃ b, s = PyStmt.functionDef attr b) ∨ (∃ b, s = PyStmt.classDef attr b) ∨
    (∃ ts, s = PyStmt.assign ts ∧ AssignTarget.nameT attr ∈ ts)

theorem target_matches_iff (attr : String) (t : AssignTarget) :
    (match t with | .nameT i => i == attr | .otherT => false) = true ↔
      t = AssignTarget.nameT attr := by
  cases t with
  | nameT i => simp [beq_iff_eq]
  | otherT => simp

theorem stmt_matches_iff (attr : String) (s : PyStmt) :
    stmt_matches attr s = true ↔ TopLevelDefines attr s := by
  cases s with
  | functionDef nm b =>
    simp [stmt_matches, TopLevelDefines, beq_iff_eq]
  | asyncFunctionDef nm b =>
    simp [stmt_matches, TopLevelDefines]
  | classDef nm b =>
    simp [stmt_matches, TopLevelDefines, beq_iff_eq]
  | assign ts =>
    simp [stmt_matches, TopLevelDefines, List.any_eq_true, target_matches_iff]
  | annAssign t =>
    simp [stmt_matches, TopLevelDefines]
  | other =>
    simp [stmt_matches, TopLevelDefines]

theorem scan_top_level_ok_iff (body : List PyStmt) (attr : String) :
    scan_top_level body attr = .ok () ↔ ∃ s ∈ body, TopLevelDefines attr s := by
  induction body with
  | nil => simp [scan_top_level]
  | cons s rest ih =>
    cases hs : stmt_matches attr s with
    | true =>
      have hmem : ∃ x ∈ s :: rest, TopLevelDefines attr x :=
        ⟨s, List.mem_cons_self s rest, (stmt_matches_iff attr s).mp hs⟩
      constructor
      · intro _; exact hmem
      · intro _; simp [scan_top_level, hs]
    | false =>
      have hred : scan_top_level (s :: rest) attr = scan_top_level rest attr := by
        simp [scan_top_level, hs]
      rw [hred, ih]
      constructor
      · rintro ⟨x, hx, hP⟩; exact ⟨x, List.mem_cons_of_mem s hx, hP⟩
      · rintro ⟨x, hx, hP⟩
        rcases List.mem_cons.mp hx with rfl | hx'
        · exact absurd ((stmt_matches_iff attr x).mpr hP) (by simp [hs])
        · exact ⟨x, hx', hP⟩

/-- Canonical decimal representation of a non-negative integer: a nonempty
digit string with no leading zero (except "0" itself). -/
def CanonNum (ds : List Char) : Prop :=
  ds ≠ [] ∧ (∀ c ∈ ds, c.isDigit = true) ∧ (ds = ['0'] ∨ ds.head? ≠ some '0')

theorem takeNum_canon (m rest : List Char) (h1 : m ≠ [])
    (h2 : ∀ c ∈ m, c.isDigit = true) (h3 : m = ['0'] ∨ m.head? ≠ some '0')
    (hr : ∀ x, rest.head? = some x → x.isDigit = false) :
    takeNum (m ++ rest) = some rest := by
  obtain ⟨ht, hd⟩ := takeWhile_app Char.isDigit m rest h2 hr
  have hne : m.isEmpty = false := List.isEmpty_eq_false.mpr h1
  have hz : numNoLeadingZero m = true := by
    unfold numNoLeadingZero
    rcases h3 with h3 | h3
    · subst h3; rfl
    · simp [bne_iff_ne.mpr h3]
  simp [takeNum, ht, hd, hne, hz]

theorem dropWhileV (m rest : List Char) (hm : m ≠ [])
    (hd : ∀ c ∈ m, c.isDigit = true) :
    List.dropWhile (fun c => c == 'v') (m ++ rest) = m ++ rest := by
  cases m with
  | nil => exact absurd rfl hm
  | cons d m' =>
    have hdig : d.isDigit = true := hd d (List.mem_cons_self d m')
    have hne : d ≠ 'v' := by
      intro h; rw [h] at hdig; exact absurd hdig (by decide)
    have hdv : (d == 'v') = false := by simp [hne]
    simp [List.dropWhile_cons, hdv]

theorem getLast?_decomp {α : Type} : ∀ (l : List α) (c : α),
    l.getLast? = some c → l = l.dropLast ++ [c] := by
  intro l
  induction l with
  | nil => intro c h; cases h
  | cons a rest ih =>
    intro c h
    cases rest with
    | nil =>
      have h2 : (([a] : List α)).getLast? = some a := rfl
      rw [h2] at h
      have := Option.some.inj h
      subst this
      rfl
    | cons b t =>
      rw [List.getLast?_cons_cons] at h
      have hrec := ih c h
      have hd : (a :: b :: t).dropLast = a :: (b :: t).dropLast := rfl
      rw [hd, List.cons_append]
      exact congrArg (List.cons a) hrec

theorem hasTrailingNewlineMatch_iff (f : List Char → Bool) (s : String) :
    hasTrailingNewlineMatch f s = true ↔
      ∃ core : String, s = core ++ "\n" ∧ f core.toList = true := by
  unfold hasTrailingNewlineMatch
  constructor
  · intro h
    rcases hl : s.toList.getLast? with _ | c
    · rw [hl] at h; simp at h
    · rw [hl] at h
      simp only [Bool.and_eq_true, beq_iff_eq] at h
      obtain ⟨hc, hcore⟩ := h
      subst hc
      refine ⟨String.mk s.toList.dropLast, ?_, hcore⟩
      have hdec := getLast?_decomp s.toList '\n' hl
      refine String.ext_iff.mpr ?_
      rw [String.data_append]
      exact hdec
  · rintro ⟨core, hs, hf⟩
    have hdata : s.toList = core.toList ++ ['\n'] := by
      rw [hs]; exact String.data_append core "\n"
    rw [hdata, List.getLast?_concat, List.dropLast_concat]
    simp only [beq_self_eq_true, Bool.true_and]
    exact hf

theorem pyReMatchSemver_iff (s : String) :
    pyReMatchSemver s = true ↔
      (semverValid s = true ∨
        ∃ core : String, s = core ++ "\n" ∧ semverValid core = true) := by
  unfold pyReMatchSemver
  rw [Bool.or_eq_true]
  apply or_congr
  · exact Iff.rfl
  · exact hasTrailingNewlineMatch_iff semverValidL s

/- ------------------------------------------------------------------ -/
/- Claim theorems                                                      -/
/- ------------------------------------------------------------------ -/

/-- Claim C10 (confirmed): an empty expected tag is treated like an absent
one: the tag check succeeds for every document without the semantic-version
parse being consulted (indeed the empty string would not parse, neither
exactly nor up to a trailing newline). -/
theorem check_tag_empty_tag_skipped :
    check_tag (some "") = .ok () ∧ check_tag none = .ok () ∧
      pyReMatchSemver (pyLstripV "") = false ∧
      semverValid (pyLstripV "") = false := ⟨rfl, rfl, rfl, rfl⟩

/-- The claim's reading of the tag normalization: strip at most one leading
'v' (stated from the spec's words, for comparison with the code's
`lstrip`). -/
def strip_one_leading_v (s : String) : String :=
  match s.toList with
  | 'v' :: rest => String.mk rest
  | _ => s

/-- Claim C5 counterexample: on "vv1.2.3" the code's `lstrip("v")` removes
both leading 'v' characters and the check succeeds, while the claim (strip
one leading 'v', then require the remainder "v1.2.3" to parse as a semantic
version) demands an InvalidVersion failure: "v1.2.3" does not parse under
the semver library. -/
theorem check_tag_double_v_counterexample :
    check_tag (some "vv1.2.3") = .ok () ∧
      pyReMatchSemver (strip_one_leading_v "vv1.2.3") = false := ⟨rfl, rfl⟩

/-- Claim C5 (corrected): the tag check strips ALL leading 'v' characters
and, for a non-empty tag, succeeds exactly when the remainder parses under
the semver library — it matches the semantic-version shape either exactly
or followed by a single trailing newline (the library's anchored regex is
applied with re.match, whose final anchor also matches there); every
canonical vMAJOR.MINOR.PATCH succeeds, "v1.2.3\n" is accepted, and
malformed strings such as "v1.2", "abc" and "1.2.3.4" fail with
InvalidVersion. -/
theorem check_tag_semver_spec :
    (∀ t : String, t ≠ "" →
      (check_tag (some t) = .ok () ↔
        (semverValid (pyLstripV t) = true ∨
          ∃ core : String, pyLstripV t = core ++ "\n" ∧
            semverValid core = true))) ∧
    (∀ m n p : List Char, CanonNum m → CanonNum n → CanonNum p →
      check_tag (some (String.mk ('v' :: (m ++ '.' :: (n ++ '.' :: p))))) = .ok ()) ∧
    check_tag (some "v1.2.3\n") = .ok () ∧
    check_tag (some "v1.2") = .error .invalidVersion ∧
    check_tag (some "abc") = .error .invalidVersion ∧
    check_tag (some "1.2.3.4") = .error .invalidVersion := by
  refine ⟨?_, ?_, rfl, rfl, rfl, rfl⟩
  · intro t ht
    have hiff : check_tag (some t) = .ok () ↔
        pyReMatchSemver (pyLstripV t) = true := by
      simp only [check_tag]
      rw [if_neg ht]
      by_cases hv : pyReMatchSemver (pyLstripV t) = true
      · simp [hv]
      · simp [hv]
    exact hiff.trans (pyReMatchSemver_iff (pyLstripV t))
  · intro m n p hm hn hp
    obtain ⟨hm1, hm2, hm3⟩ := hm
    obtain ⟨hn1, hn2, hn3⟩ := hn
    obtain ⟨hp1, hp2, hp3⟩ := hp
    have hs : String.mk ('v' :: (m ++ '.' :: (n ++ '.' :: p))) ≠ "" := by
      intro h
      have h2 := congrArg String.data h
      simp at h2
    have hstrip : pyLstripV (String.mk ('v' :: (m ++ '.' :: (n ++ '.' :: p)))) =
        String.mk (m ++ '.' :: (n ++ '.' :: p)) := by
      unfold pyLstripV
      congr 1
      show List.dropWhile _ ('v' :: _) = _
      rw [List.dropWhile_cons]
      simp only [beq_self_eq_true, if_true]
      exact dropWhileV m _ hm1 hm2
    have hdot : ∀ (l : List Char) (x : Char),
        ('.' :: l).head? = some x → x.isDigit = false := by
      intro l x hx
      simp only [List.head?_cons, Option.some.injEq] at hx
      subst hx; decide
    have h1 : takeNum (m ++ '.' :: (n ++ '.' :: p)) = some ('.' :: (n ++ '.' :: p)) :=
      takeNum_canon m _ hm1 hm2 hm3 (hdot _)
    have h2 : takeNum (n ++ '.' :: p) = some ('.' :: p) :=
      takeNum_canon n _ hn1 hn2 hn3 (hdot _)
    have h3 : takeNum p = some [] := by
      have h4 := takeNum_canon p [] hp1 hp2 hp3 (by intro x hx; simp at hx)
      simpa using h4
    have hd1 : expectDot ('.' :: (n ++ '.' :: p)) = some (n ++ '.' :: p) := rfl
    have hd2 : expectDot ('.' :: p) = some p := rfl
    have hv : semverValidL (m ++ '.' :: (n ++ '.' :: p)) = true := by
      simp only [semverValidL, h1, hd1, h2, hd2, h3]
      rfl
    have hv2 : pyReMatchSemver (String.mk (m ++ '.' :: (n ++ '.' :: p))) = true := by
      have htl : (String.mk (m ++ '.' :: (n ++ '.' :: p))).toList =
          m ++ '.' :: (n ++ '.' :: p) := rfl
      simp only [pyReMatchSemver, htl, hv, Bool.true_or]
    simp only [check_tag]
    rw [if_neg hs, hstrip]
    simp [hv2]

/-- Claim C4 (confirmed): the top-level scan succeeds exactly when some
direct top-level statement is a function or class definition named
`attr`, or an assignment whose target is the bare name `attr`; otherwise it
fails with AttributeNotFound (so a name defined only inside a nested body
is not found). -/
theorem scan_top_level_spec (body : List PyStmt) (attr : String) :
    (scan_top_level body attr = .ok () ∨
      scan_top_level body attr = .error .attributeNotFound) ∧
    (scan_top_level body attr = .ok () ↔ ∃ s ∈ body, TopLevelDefines attr s) :=
  ⟨scan_top_level_cases body attr, scan_top_level_ok_iff body attr⟩

/-- Claim C6 (confirmed): the asset check fails with PathTraversal exactly
when the supplied value is a string one of whose parsed path segments
equals ".."; a ".." substring inside a longer segment does not trigger it,
and the outcome is independent of the filesystem, so it precedes the
existence check. -/
theorem check_asset_traversal_iff (fs : List PyPath) (pv : Option YValue)
    (root : PyPath) :
    (check_asset_path fs pv root = .error .pathTraversal ↔
      ∃ s, pv = some (.str s) ∧ ".." ∈ (parsePath s).segments) ∧
    ".." ∈ (parsePath "assets/../secret").segments ∧
    ".." ∉ (parsePath "..foo/bar").segments := by
  refine ⟨?_, by decide, by decide⟩
  cases pv with
  | none => simp [check_asset_path]
  | some v =>
    cases v with
    | str s =>
      by_cases h0 : s = ""
      · subst h0
        have hseg : (parsePath "").segments = [] := rfl
        simp [check_asset_path, hseg]
      · by_cases h1 : ".." ∈ (parsePath s).segments
        · simp only [check_asset_path, if_neg h0, if_pos h1]
          exact iff_of_true trivial ⟨s, rfl, h1⟩
        · simp only [check_asset_path, if_neg h0, if_neg h1]
          constructor
          · intro h
            by_cases h2 : pyJoin root (parsePath s) ∈ fs <;> simp [h2] at h
          · rintro ⟨s', hs', hmem⟩
            injection hs' with hs'
            injection hs' with hs'
            subst hs'
            exact absurd hmem h1
    | dict d => simp [check_asset_path]
    | list l => simp [check_asset_path]
    | other => simp [check_asset_path]

/-- Claim C2 counterexample: an absolute asset path replaces the package
root under pathlib's `/` operator, so the check succeeds on "/etc" (which
exists in this filesystem) even though the resolved path is not under the
package root "/pkg". -/
theorem check_asset_absolute_escape :
    check_asset_path [⟨true, ["etc"]⟩] (some (.str "/etc")) ⟨true, ["pkg"]⟩ =
        .ok () ∧
      is_under (pyJoin ⟨true, ["pkg"]⟩ (parsePath "/etc")) ⟨true, ["pkg"]⟩ =
        false := ⟨rfl, rfl⟩

/-- Claim C2 (corrected): if the asset check succeeds then the resolved
path `packageRoot/pathString` exists on disk and the parsed path has no
".." segment; and whenever the path string is relative, the resolved path
is under the package root.  (An absolute path string replaces the root
entirely and may escape it, as the counterexample shows.) -/
theorem check_asset_ok_implies (fs : List PyPath) (s : String) (root : PyPath)
    (h : check_asset_path fs (some (.str s)) root = .ok ()) :
    pyJoin root (parsePath s) ∈ fs ∧ ".." ∉ (parsePath s).segments ∧
      ((parsePath s).absolute = false →
        is_under (pyJoin root (parsePath s)) root = true) := by
  by_cases h0 : s = ""
  · subst h0; simp [check_asset_path] at h
  · by_cases h1 : ".." ∈ (parsePath s).segments
    · simp [check_asset_path, h0, h1] at h
    · by_cases h2 : pyJoin root (parsePath s) ∈ fs
      · refine ⟨h2, h1, ?_⟩
        intro habs
        have hj : pyJoin root (parsePath s) =
            ⟨root.absolute, root.segments ++ (parsePath s).segments⟩ := by
          simp [pyJoin, habs]
        rw [hj]
        simp only [is_under, beq_self_eq_true, Bool.true_and]
        exact List.isPrefixOf_iff_prefix.mpr (List.prefix_append _ _)
      · simp [check_asset_path, h0, h1, h2] at h

theorem check_asset_ok_implies_witness :
    pyJoin ⟨true, ["pkg"]⟩ (parsePath "a.png") ∈
        [(⟨true, ["pkg", "a.png"]⟩ : PyPath)] ∧
      ".." ∉ (parsePath "a.png").segments ∧
      ((parsePath "a.png").absolute = false →
        is_under (pyJoin ⟨true, ["pkg"]⟩ (parsePath "a.png")) ⟨true, ["pkg"]⟩ =
          true) :=
  check_asset_ok_implies [⟨true, ["pkg", "a.png"]⟩] "a.png" ⟨true, ["pkg"]⟩ rfl

/-- Claim C3 (code bug evidence): on the entry point "pkg.mod:f" the
validation succeeds, but resolving the dotted module path imports — and
hence executes — the parent package "pkg" (its `__init__.py`), because
`importlib.util.find_spec` imports every parent package of a dotted name;
this contradicts the function's own docstring ("without executing code")
and the spec's non-goal. -/
theorem find_spec_parent_import_executes :
    check_code_entry_point
        [⟨true, ["proj", "pkg", "__init__.py"]⟩, ⟨true, ["proj", "pkg", "mod.py"]⟩]
        (fun _ => [PyStmt.functionDef "f" []]) [] ⟨true, ["proj"]⟩ "pkg.mod:f" =
      (.ok (), [["pkg"]]) := rfl

theorem lookup_append_some {β : Type} (data extra : List (String × β))
    (k : String) (v : β) (h : data.lookup k = some v) :
    (data ++ extra).lookup k = some v := by
  induction data with
  | nil => simp [List.lookup] at h
  | cons p rest ih =>
    rcases p with ⟨k', v'⟩
    cases hk : (k == k') with
    | true => simp only [List.lookup, hk] at h ⊢; exact h
    | false => simp only [List.lookup, hk] at h ⊢; exact ih h

theorem lookup_append_none {β : Type} (data extra : List (String × β))
    (k : String) (h : data.lookup k = none) :
    (data ++ extra).lookup k = extra.lookup k := by
  induction data with
  | nil => rfl
  | cons p rest ih =>
    rcases p with ⟨k', v'⟩
    cases hk : (k == k') with
    | true => simp only [List.lookup, hk] at h; exact Option.noConfusion h
    | false => simp only [List.lookup, hk] at h ⊢; exact ih h

theorem lookup_not_mem_keys {β : Type} (l : List (String × β)) (k : String)
    (h : ∀ p ∈ l, p.fst ≠ k) : l.lookup k = none := by
  induction l with
  | nil => rfl
  | cons p rest ih =>
    rcases p with ⟨k', v'⟩
    have hne : k' ≠ k := h (k', v') (List.mem_cons_self _ _)
    have hk : (k == k') = false := beq_eq_false_iff_ne.mpr (fun he => hne he.symm)
    simp only [List.lookup, hk]
    exact ih (fun p hp => h p (List.mem_cons_of_mem _ hp))

theorem validate_dict_schema_agree (schema : Schema) :
    ∀ (data data' : List (String × YValue)) (pk : String),
      (∀ key rule, (key, rule) ∈ schema → data'.lookup key = data.lookup key) →
      validate_dict_schema data' schema pk = validate_dict_schema data schema pk := by
  induction schema with
  | nil => intro _ _ _ _; rfl
  | cons p rest ih =>
    rcases p with ⟨key, rules⟩
    intro data data' pk h
    have hk : data'.lookup key = data.lookup key :=
      h key rules (List.mem_cons_self _ _)
    have hrest : ∀ key' rule', (key', rule') ∈ rest →
        data'.lookup key' = data.lookup key' :=
      fun key' rule' hm => h key' rule' (List.mem_cons_of_mem _ hm)
    simp only [validate_dict_schema, hk, ih data data' pk hrest]

/-- Claim C9 (confirmed): schema validation only consults document keys
declared in the schema, so appending entries whose keys are not declared in
the schema leaves its outcome unchanged (in particular, a passing document
still passes with extra unknown fields). -/
theorem validate_dict_schema_extra_keys (data extra : List (String × YValue))
    (schema : Schema) (pk : String)
    (h : ∀ p ∈ extra, ∀ q ∈ schema, p.fst ≠ q.fst) :
    validate_dict_schema (data ++ extra) schema pk =
      validate_dict_schema data schema pk := by
  apply validate_dict_schema_agree
  intro key rule hmem
  cases hdl : data.lookup key with
  | some v => exact lookup_append_some data extra key v hdl
  | none =>
    rw [lookup_append_none data extra key hdl]
    exact lookup_not_mem_keys extra key (fun p hp => h p hp (key, rule) hmem)

theorem validate_dict_schema_extra_keys_witness :
    validate_dict_schema
        ([("name", .str "pkg"), ("description", .str "d"),
          ("author", .dict []), ("provides", .dict [])] ++
          [("extra_field", YValue.other)]) SCHEMA "" =
      validate_dict_schema
        [("name", .str "pkg"), ("description", .str "d"),
         ("author", .dict []), ("provides", .dict [])] SCHEMA "" :=
  validate_dict_schema_extra_keys
    [("name", .str "pkg"), ("description", .str "d"),
     ("author", .dict []), ("provides", .dict [])]
    [("extra_field", YValue.other)] SCHEMA "" (by decide)

/-- The email shape as the spec words it: one or more local-part
characters, '@', one or more domain characters, a literal dot, one or more
tail characters — covering the whole string (stated from the spec, for
comparison with the code's regex matching). -/
def SpecEmailShapeL (cs : List Char) : Prop :=
  ∃ l d t : List Char, cs = l ++ '@' :: (d ++ '.' :: t) ∧ l ≠ [] ∧ d ≠ [] ∧
    t ≠ [] ∧ (∀ c ∈ l, isLocalChar c = true) ∧ (∀ c ∈ d, isDomChar c = true) ∧
    (∀ c ∈ t, isTailChar c = true)

def SpecEmailShape (s : String) : Prop := SpecEmailShapeL s.toList

theorem emailCore_iff (cs : List Char) :
    emailCore cs = true ↔ SpecEmailShapeL cs := by
  constructor
  · intro h
    unfold emailCore at h
    rcases h1 : cs.dropWhile isLocalChar with _ | ⟨a, r2⟩
    · rw [h1] at h; simp at h
    · rw [h1] at h
      simp only [Bool.and_eq_true, beq_iff_eq] at h
      obtain ⟨ha, h⟩ := h
      subst ha
      rcases h2 : r2.dropWhile isDomChar with _ | ⟨b, t⟩
      · rw [h2] at h; simp at h
      · rw [h2] at h
        simp only [Bool.and_eq_true, beq_iff_eq, Bool.not_eq_true',
          List.isEmpty_eq_false] at h
        obtain ⟨⟨⟨⟨hb, hl⟩, hd⟩, htne⟩, hall⟩ := h
        subst hb
        have e1 : cs.takeWhile isLocalChar ++ ('@' :: r2) = cs := by
          rw [← h1]; exact List.takeWhile_append_dropWhile _ _
        have e2 : r2.takeWhile isDomChar ++ ('.' :: t) = r2 := by
          rw [← h2]; exact List.takeWhile_append_dropWhile _ _
        rw [← e2] at e1
        refine ⟨cs.takeWhile isLocalChar, r2.takeWhile isDomChar, t, e1.symm,
          hl, hd, htne, ?_, ?_, List.all_eq_true.mp hall⟩
        · intro c hc; exact List.mem_takeWhile_imp hc
        · intro c hc; exact List.mem_takeWhile_imp hc
  · rintro ⟨l, d, t, rfl, hl, hd, ht, hlc, hdc, htc⟩
    have e1 := takeWhile_app isLocalChar l ('@' :: (d ++ '.' :: t)) hlc
      (by intro x hx; rw [List.head?_cons] at hx
          injection hx with hx; rw [← hx]; decide)
    have e2 := takeWhile_app isDomChar d ('.' :: t) hdc
      (by intro x hx; rw [List.head?_cons] at hx
          injection hx with hx; rw [← hx]; decide)
    simp [emailCore, e1.1, e1.2, e2.1, e2.2, List.isEmpty_eq_false.mpr hl,
      List.isEmpty_eq_false.mpr hd, List.isEmpty_eq_false.mpr ht,
      List.all_eq_true.mpr htc]

theorem pyReMatchEmail_iff (s : String) :
    pyReMatchEmail s = true ↔
      (SpecEmailShape s ∨
        ∃ core : String, s = core ++ "\n" ∧ SpecEmailShape core) := by
  unfold pyReMatchEmail
  rw [Bool.or_eq_true]
  apply or_congr
  · exact emailCore_iff s.toList
  · constructor
    · intro h
      rcases hl : s.toList.getLast? with _ | c
      · rw [hl] at h; simp at h
      · rw [hl] at h
        simp only [Bool.and_eq_true, beq_iff_eq] at h
        obtain ⟨hc, hcore⟩ := h
        subst hc
        refine ⟨String.mk s.toList.dropLast, ?_, (emailCore_iff _).mp hcore⟩
        have hdec := getLast?_decomp s.toList '\n' hl
        refine String.ext_iff.mpr ?_
        rw [String.data_append]
        exact hdec
    · rintro ⟨core, hs, hshape⟩
      have hdata : s.toList = core.toList ++ ['\n'] := by
        rw [hs]; exact String.data_append core "\n"
      rw [hdata, List.getLast?_concat, List.dropLast_concat]
      simp only [beq_self_eq_true, Bool.true_and]
      exact (emailCore_iff core.toList).mpr hshape

theorem specShape_last_tail (s : String) (h : SpecEmailShape s) :
    ∃ c, s.toList.getLast? = some c ∧ isTailChar c = true := by
  obtain ⟨l, d, t, heq, _, _, ht, _, _, htc⟩ := h
  refine ⟨t.getLast ht, ?_, htc _ (List.getLast_mem ht)⟩
  rw [show s.toList = (l ++ '@' :: d ++ ['.']) ++ t from by rw [heq]; simp]
  rw [List.getLast?_append, List.getLast?_eq_getLast t ht]
  rfl

/-- Claim C7 counterexample: the email "a@b.com\n" (a trailing newline)
does not match the claimed shape — its last character is a newline, which
is outside every character class — yet the author content check accepts it,
because Python's `$` anchor also matches just before a trailing newline. -/
theorem check_author_trailing_newline_counterexample :
    check_author_content [("name", .str "A"), ("email", .str "a@b.com\n")] =
        .ok () ∧ ¬ SpecEmailShape "a@b.com\n" := by
  refine ⟨rfl, ?_⟩
  intro h
  obtain ⟨c, hc, htail⟩ := specShape_last_tail _ h
  rw [show ("a@b.com\n").toList.getLast? = some '\n' from rfl] at hc
  have hcn := (Option.some.inj hc).symm
  subst hcn
  exact absurd htail (by decide)

/-- Claim C7 (corrected): for a well-formed author name and a non-blank
email, the author content check fails with InvalidEmail exactly when the
email matches neither the conservative shape nor that shape followed by a
single trailing newline (Python's `$` anchor accepts the latter); the
claim's examples hold: "not-an-email" fails with InvalidEmail and
"a@b.com" passes. -/
theorem check_author_email_spec :
    (∀ nm email : String, nm ≠ "" → pyStrip nm ≠ "" →
      py_in_str "your-github-username" nm = false →
      email ≠ "" → pyStrip email ≠ "" →
      (check_author_content [("name", .str nm), ("email", .str email)] =
          .error .invalidEmail ↔
        ¬ (SpecEmailShape email ∨
            ∃ core : String, email = core ++ "\n" ∧ SpecEmailShape core))) ∧
    check_author_content [("name", .str "A"), ("email", .str "not-an-email")] =
      .error .invalidEmail ∧
    check_author_content [("name", .str "A"), ("email", .str "a@b.com")] =
      .ok () := by
  refine ⟨?_, rfl, rfl⟩
  intro nm email h1 h2 h3 h4 h5
  have hget1 : get_str_default [("name", .str nm), ("email", .str email)]
      "name" = some nm := rfl
  have hget2 : get_str_default [("name", .str nm), ("email", .str email)]
      "email" = some email := rfl
  have hcne1 : check_non_empty_str (some (.str nm)) "author.name" = .ok () := by
    simp [check_non_empty_str, h1, h2]
  have hcne2 : check_non_empty_str (some (.str email)) "author.email" = .ok () := by
    simp [check_non_empty_str, h4, h5]
  simp only [check_author_content, hget1, hget2, hcne1, hcne2, h3,
    Bool.false_eq_true, if_false]
  cases hm : pyReMatchEmail email with
  | true =>
    simp only [hm, if_true]
    exact iff_of_false (by simp)
      (not_not_intro ((pyReMatchEmail_iff email).mp hm))
  | false =>
    simp only [hm, Bool.false_eq_true, if_false]
    refine iff_of_true trivial ?_
    intro hx
    rw [(pyReMatchEmail_iff email).mpr hx] at hm
    exact Bool.noConfusion hm

theorem check_author_email_spec_witness :
    (check_author_content [("name", .str "A"), ("email", .str "ab@cd.ef")] =
        .error .invalidEmail ↔
      ¬ (SpecEmailShape "ab@cd.ef" ∨
          ∃ core : String, "ab@cd.ef" = core ++ "\n" ∧ SpecEmailShape core)) :=
  check_author_email_spec.1 "A" "ab@cd.ef" (by decide) (by decide) (by decide)
    (by decide) (by decide)

/-- Claim C8 (confirmed): the pipeline exits 0 exactly when the metadata
file is present, parses, has a mapping at top level, and both schema and
content validation succeed; every failure of any kind exits 1; and when
schema validation fails the pipeline's diagnostic is exactly that schema
failure, independent of the content checks (fail-fast). -/
theorem run_exit_code_spec (w : World) (a : Args) :
    (run_exit w a = 0 ↔
      (w.metadata_present = true ∧ ∃ data, w.parsed = .ok (.dict data) ∧
        validate_schema data = .ok () ∧
        validate_content w.fs w.ast w.sys_path data a.root_path a.tag
          a.expected_nm = .ok ())) ∧
    (run_exit w a = 0 ∨ run_exit w a = 1) ∧
    (∀ data e, w.metadata_present = true → w.parsed = .ok (.dict data) →
      validate_schema data = .error e → run_validation w a = .error e) := by
  cases hm : w.metadata_present with
  | false =>
    have hrv : run_validation w a = .error .fileNotFound := by
      simp [run_validation, hm]
    refine ⟨?_, Or.inr (by simp [run_exit, hrv]), ?_⟩
    · simp [run_exit, hrv, hm]
    · intro data e hmt _ _
      exact Bool.noConfusion hmt
  | true =>
    cases hp : w.parsed with
    | error u =>
      have hrv : run_validation w a = .error .parseError := by
        simp [run_validation, hm, hp]
      refine ⟨?_, Or.inr (by simp [run_exit, hrv]), ?_⟩
      · simp only [run_exit, hrv]
        constructor
        · intro h; exact absurd h (by simp)
        · rintro ⟨_, data, hd, _⟩
          exact Except.noConfusion hd
      · intro data e _ hp' _
        exact Except.noConfusion hp'
    | ok v =>
      cases v with
      | dict data =>
        cases hs : validate_schema data with
        | error e0 =>
          have hrv : run_validation w a = .error e0 := by
            simp [run_validation, hm, hp, hs, Bind.bind, Except.bind]
          refine ⟨?_, Or.inr (by simp [run_exit, hrv]), ?_⟩
          · simp only [run_exit, hrv]
            constructor
            · intro h; exact absurd h (by simp)
            · rintro ⟨_, data', hd, hsok, _⟩
              injection hd with hd
              injection hd with hd
              subst hd
              rw [hs] at hsok
              exact Except.noConfusion hsok
          · intro data' e _ hp' hs'
            injection hp' with hp'
            injection hp' with hp'
            subst hp'
            rw [hs] at hs'
            injection hs' with hs'
            rw [hrv, hs']
        | ok u0 =>
          cases u0
          cases hc : validate_content w.fs w.ast w.sys_path data a.root_path
              a.tag a.expected_nm with
          | error e1 =>
            have hrv : run_validation w a = .error e1 := by
              simp [run_validation, hm, hp, hs, hc, Bind.bind, Except.bind]
            refine ⟨?_, Or.inr (by simp [run_exit, hrv]), ?_⟩
            · simp only [run_exit, hrv]
              constructor
              · intro h; exact absurd h (by simp)
              · rintro ⟨_, data', hd, _, hcok⟩
                injection hd with hd
                injection hd with hd
                subst hd
                rw [hc] at hcok
                exact Except.noConfusion hcok
            · intro data' e _ hp' hs'
              injection hp' with hp'
              injection hp' with hp'
              subst hp'
              rw [hs] at hs'
              exact Except.noConfusion hs'
          | ok u1 =>
            cases u1
            have hrv : run_validation w a = .ok () := by
              simp [run_validation, hm, hp, hs, hc, Bind.bind, Except.bind]
            refine ⟨?_, Or.inl (by simp [run_exit, hrv]), ?_⟩
            · have h0 : run_exit w a = 0 := by simp [run_exit, hrv]
              exact iff_of_true h0 ⟨rfl, data, rfl, hs, hc⟩
            · intro data' e _ hp' hs'
              injection hp' with hp'
              injection hp' with hp'
              subst hp'
              rw [hs] at hs'
              exact Except.noConfusion hs'
      | str v =>
        have hrv : run_validation w a = .error .wrongShape := by
          simp [run_validation, hm, hp]
        refine ⟨?_, Or.inr (by simp [run_exit, hrv]), ?_⟩
        · simp only [run_exit, hrv]
          constructor
          · intro h; exact absurd h (by simp)
          · rintro ⟨_, data', hd, _⟩
            injection hd with hd
            exact YValue.noConfusion hd
        · intro data' e _ hp' _
          injection hp' with hp'
          exact YValue.noConfusion hp'
      | list v =>
        have hrv : run_validation w a = .error .wrongShape := by
          simp [run_validation, hm, hp]
        refine ⟨?_, Or.inr (by simp [run_exit, hrv]), ?_⟩
        · simp only [run_exit, hrv]
          constructor
          · intro h; exact absurd h (by simp)
          · rintro ⟨_, data', hd, _⟩
            injection hd with hd
            exact YValue.noConfusion hd
        · intro data' e _ hp' _
          injection hp' with hp'
          exact YValue.noConfusion hp'
      | other =>
        have hrv : run_validation w a = .error .wrongShape := by
          simp [run_validation, hm, hp]
        refine ⟨?_, Or.inr (by simp [run_exit, hrv]), ?_⟩
        · simp only [run_exit, hrv]
          constructor
          · intro h; exact absurd h (by simp)
          · rintro ⟨_, data', hd, _⟩
            injection hd with hd
            exact YValue.noConfusion hd
        · intro data' e _ hp' _
          injection hp' with hp'
          exact YValue.noConfusion hp'

theorem run_exit_code_spec_witness :
    run_exit
        ⟨[⟨true, ["proj", "m.py"]⟩], (fun _ => [PyStmt.functionDef "f" []]), [],
          true,
          .ok (.dict [("name", .str "pkg"), ("description", .str "d"),
            ("author", .dict [("name", .str "A"), ("email", .str "a@b.com")]),
            ("provides", .dict [("code", .str "m:f")])])⟩
        ⟨⟨true, ["proj"]⟩, none, none⟩ = 0 :=
  (run_exit_code_spec
      ⟨[⟨true, ["proj", "m.py"]⟩], (fun _ => [PyStmt.functionDef "f" []]), [],
        true,
        .ok (.dict [("name", .str "pkg"), ("description", .str "d"),
          ("author", .dict [("name", .str "A"), ("email", .str "a@b.com")]),
          ("provides", .dict [("code", .str "m:f")])])⟩
      ⟨⟨true, ["proj"]⟩, none, none⟩).1.mpr
    ⟨rfl,
      [("name", .str "pkg"), ("description", .str "d"),
        ("author", .dict [("name", .str "A"), ("email", .str "a@b.com")]),
        ("provides", .dict [("code", .str "m:f")])], rfl, rfl, rfl⟩

theorem check_tag_semver_spec_witness :
    check_tag (some (String.mk
      ('v' :: (['1'] ++ '.' :: (['2', '3'] ++ '.' :: ['0']))))) = .ok () :=
  check_tag_semver_spec.2.1 ['1'] ['2', '3'] ['0']
    ⟨by decide, by decide, by decide⟩ ⟨by decide, by decide, by decide⟩
    ⟨by decide, by decide, by decide⟩

theorem scan_top_level_spec_witness :
    (scan_top_level [PyStmt.functionDef "outer" [PyStmt.functionDef "thing" []]]
        "thing" = .ok () ∨
      scan_top_level [PyStmt.functionDef "outer" [PyStmt.functionDef "thing" []]]
        "thing" = .error .attributeNotFound) ∧
    (scan_top_level [PyStmt.functionDef "outer" [PyStmt.functionDef "thing" []]]
        "thing" = .ok () ↔
      ∃ s ∈ [PyStmt.functionDef "outer" [PyStmt.functionDef "thing" []]],
        TopLevelDefines "thing" s) :=
  scan_top_level_spec [PyStmt.functionDef "outer" [PyStmt.functionDef "thing" []]]
    "thing"

theorem check_asset_traversal_iff_witness :
    (check_asset_path [] (some (.str "assets/../secret")) ⟨true, ["pkg"]⟩ =
        .error .pathTraversal ↔
      ∃ s, (some (.str "assets/../secret") : Option YValue) = some (.str s) ∧
        ".." ∈ (parsePath s).segments) ∧
    ".." ∈ (parsePath "assets/../secret").segments ∧
    ".." ∉ (parsePath "..foo/bar").segments :=
  check_asset_traversal_iff [] (some (.str "assets/../secret")) ⟨true, ["pkg"]⟩
